import Mathlib

/-!
Verification of the LiDAR classifier & contour generator (`src/app.py`).

The development shallowly embeds the two algorithmic parts of the app:
the PDAL classification pipeline description (`pipeline_json`) together
with the semantics of its stages, and the per-class contour generation
loop (class subset selection, `np.arange` grids, iso-value levels,
color resolution).  Floating point values are embedded as exact
rationals; the external library calls (PDAL filters, `scipy.griddata`,
`matplotlib` color handling, streamlit widgets) are modelled from the
specification where their code is not part of the repository.
-/

namespace LiDAR

/-! ### The PDAL classification pipeline (`src/app.py` lines 46-69) -/

/-- One element of the `pipeline` array in `pipeline_json`: either a bare
path string (reader/writer inferred by position) or a filter stage. -/
inductive Stage where
  | path (p : String)
  | smrf (scalar slope threshold window : ℚ)
  | assign (assignment : String)
  | hag
  | range (limits : String)
  deriving DecidableEq, Repr

/-- The pipeline description built by the app for a given input/output
path pair, stage for stage as in `src/app.py` lines 46-69. -/
def pipeline_json (input_path output_path : String) : List Stage :=
  [ Stage.path input_path,
    Stage.smrf 1.2 0.2 0.45 16.0,
    Stage.assign "Classification[:]=0",
    Stage.hag,
    Stage.range "Classification[2:2]",
    Stage.path output_path ]

def isSmrfStage : Stage → Bool
  | Stage.smrf _ _ _ _ => true
  | _ => false

def isResetStage : Stage → Bool
  | Stage.assign a => a == "Classification[:]=0"
  | _ => false

def isRangeStage : Stage → Bool
  | Stage.range _ => true
  | _ => false

/-! ### Buffer semantics of the pipeline stages -/

/-- An input point: x, y, z coordinates (exact rationals). -/
structure Point where
  x : ℚ
  y : ℚ
  z : ℚ
  deriving DecidableEq, Repr

/-- In-memory point buffer with the mutable parallel columns the PDAL
stages read and write: a classification code per point and an optional
height-above-ground per point (`none` = unset/NaN). -/
structure Buffer where
  pts : List Point
  classification : List ℕ
  heights : List (Option ℚ)
  deriving DecidableEq, Repr

/-- Reset every classification value to 0, leaving points and heights
untouched (the explicit "clear classification" operation). -/
def resetClassification (b : Buffer) : Buffer :=
  { b with classification := b.classification.map fun _ => 0 }

/-- Modelled from the spec: the two PDAL filters whose implementation is
not part of this repository.  `smrfLabel` is `filters.smrf`, which per
§4.1 labels ground vs. non-ground from the raw coordinates (and the four
numeric parameters) alone; `hagHeights` is `filters.hag`, which per §4.2
computes height-above-ground from the coordinates and the current
classification column. -/
structure PdalSem where
  smrfLabel : ℚ → ℚ → ℚ → ℚ → List Point → List ℕ
  hagHeights : List Point → List ℕ → List (Option ℚ)

/-- Keep only the points whose classification lies in the inclusive
range [2,2] (`filters.range` with limits `Classification[2:2]`),
filtering the parallel columns consistently. -/
def rangeKeepGround (b : Buffer) : Buffer :=
  let t := (b.pts.zip (b.classification.zip b.heights)).filter
    fun pc => 2 ≤ pc.2.1 && pc.2.1 ≤ 2
  { pts := t.map (fun pc => pc.1),
    classification := t.map (fun pc => pc.2.1),
    heights := t.map (fun pc => pc.2.2) }

/-- Effect of one pipeline stage on the buffer.  Bare paths are I/O and
leave the in-memory buffer unchanged; `filters.assign` with
`Classification[:]=0` overwrites the whole classification column with 0;
`filters.range` with `Classification[2:2]` keeps only ground points. -/
def runStage (sem : PdalSem) (b : Buffer) : Stage → Buffer
  | Stage.path _ => b
  | Stage.smrf sc sl th w => { b with classification := sem.smrfLabel sc sl th w b.pts }
  | Stage.assign a =>
      if a == "Classification[:]=0" then
        { b with classification := b.classification.map fun _ => 0 }
      else b
  | Stage.hag => { b with heights := sem.hagHeights b.pts b.classification }
  | Stage.range l => if l == "Classification[2:2]" then rangeKeepGround b else b

/-- Run a whole pipeline description on a buffer, stage after stage. -/
def runPipeline (sem : PdalSem) (b : Buffer) (stages : List Stage) : Buffer :=
  stages.foldl (runStage sem) b

/-! ### Color handling (`src/app.py` lines 12-24, 106-112) -/

/-- Is `ch` a hexadecimal digit? -/
def isHexDigitChar (ch : Char) : Bool :=
  ch.isDigit || ('a' ≤ ch && ch ≤ 'f') || ('A' ≤ ch && ch ≤ 'F')

/-- Is `s` a color string of the form `#rrggbb` (a `#` followed by six
hexadecimal digits)? -/
def isHexColor (s : String) : Bool :=
  s.data.length == 7 && s.data.head? == some '#' && (s.data.drop 1).all isHexDigitChar

/-- Modelled from the spec: `matplotlib.colors.CSS4_COLORS`, the mapping
from every CSS4 color name to its hex value, as fixed by the CSS Color
Module (the matplotlib source is not part of this repository). -/
def CSS4_COLORS : List (String × String) :=
  [ ("aliceblue", "#F0F8FF"), ("antiquewhite", "#FAEBD7"), ("aqua", "#00FFFF"),
    ("aquamarine", "#7FFFD4"), ("azure", "#F0FFFF"), ("beige", "#F5F5DC"),
    ("bisque", "#FFE4C4"), ("black", "#000000"), ("blanchedalmond", "#FFEBCD"),
    ("blue", "#0000FF"), ("blueviolet", "#8A2BE2"), ("brown", "#A52A2A"),
    ("burlywood", "#DEB887"), ("cadetblue", "#5F9EA0"), ("chartreuse", "#7FFF00"),
    ("chocolate", "#D2691E"), ("coral", "#FF7F50"), ("cornflowerblue", "#6495ED"),
    ("cornsilk", "#FFF8DC"), ("crimson", "#DC143C"), ("cyan", "#00FFFF"),
    ("darkblue", "#00008B"), ("darkcyan", "#008B8B"), ("darkgoldenrod", "#B8860B"),
    ("darkgray", "#A9A9A9"), ("darkgreen", "#006400"), ("darkgrey", "#A9A9A9"),
    ("darkkhaki", "#BDB76B"), ("darkmagenta", "#8B008B"), ("darkolivegreen", "#556B2F"),
    ("darkorange", "#FF8C00"), ("darkorchid", "#9932CC"), ("darkred", "#8B0000"),
    ("darksalmon", "#E9967A"), ("darkseagreen", "#8FBC8F"), ("darkslateblue", "#483D8B"),
    ("darkslategray", "#2F4F4F"), ("darkslategrey", "#2F4F4F"), ("darkturquoise", "#00CED1"),
    ("darkviolet", "#9400D3"), ("deeppink", "#FF1493"), ("deepskyblue", "#00BFFF"),
    ("dimgray", "#696969"), ("dimgrey", "#696969"), ("dodgerblue", "#1E90FF"),
    ("firebrick", "#B22222"), ("floralwhite", "#FFFAF0"), ("forestgreen", "#228B22"),
    ("fuchsia", "#FF00FF"), ("gainsboro", "#DCDCDC"), ("ghostwhite", "#F8F8FF"),
    ("gold", "#FFD700"), ("goldenrod", "#DAA520"), ("gray", "#808080"),
    ("green", "#008000"), ("greenyellow", "#ADFF2F"), ("grey", "#808080"),
    ("honeydew", "#F0FFF0"), ("hotpink", "#FF69B4"), ("indianred", "#CD5C5C"),
    ("indigo", "#4B0082"), ("ivory", "#FFFFF0"), ("khaki", "#F0E68C"),
    ("lavender", "#E6E6FA"), ("lavenderblush", "#FFF0F5"), ("lawngreen", "#7CFC00"),
    ("lemonchiffon", "#FFFACD"), ("lightblue", "#ADD8E6"), ("lightcoral", "#F08080"),
    ("lightcyan", "#E0FFFF"), ("lightgoldenrodyellow", "#FAFAD2"), ("lightgray", "#D3D3D3"),
    ("lightgreen", "#90EE90"), ("lightgrey", "#D3D3D3"), ("lightpink", "#FFB6C1"),
    ("lightsalmon", "#FFA07A"), ("lightseagreen", "#20B2AA"), ("lightskyblue", "#87CEFA"),
    ("lightslategray", "#778899"), ("lightslategrey", "#778899"), ("lightsteelblue", "#B0C4DE"),
    ("lightyellow", "#FFFFE0"), ("lime", "#00FF00"), ("limegreen", "#32CD32"),
    ("linen", "#FAF0E6"), ("magenta", "#FF00FF"), ("maroon", "#800000"),
    ("mediumaquamarine", "#66CDAA"), ("mediumblue", "#0000CD"), ("mediumorchid", "#BA55D3"),
    ("mediumpurple", "#9370DB"), ("mediumseagreen", "#3CB371"), ("mediumslateblue", "#7B68EE"),
    ("mediumspringgreen", "#00FA9A"), ("mediumturquoise", "#48D1CC"), ("mediumvioletred", "#C71585"),
    ("midnightblue", "#191970"), ("mintcream", "#F5FFFA"), ("mistyrose", "#FFE4E1"),
    ("moccasin", "#FFE4B5"), ("navajowhite", "#FFDEAD"), ("navy", "#000080"),
    ("oldlace", "#FDF5E6"), ("olive", "#808000"), ("olivedrab", "#6B8E23"),
    ("orange", "#FFA500"), ("orangered", "#FF4500"), ("orchid", "#DA70D6"),
    ("palegoldenrod", "#EEE8AA"), ("palegreen", "#98FB98"), ("paleturquoise", "#AFEEEE"),
    ("palevioletred", "#DB7093"), ("papayawhip", "#FFEFD5"), ("peachpuff", "#FFDAB9"),
    ("peru", "#CD853F"), ("pink", "#FFC0CB"), ("plum", "#DDA0DD"),
    ("powderblue", "#B0E0E6"), ("purple", "#800080"), ("rebeccapurple", "#663399"),
    ("red", "#FF0000"), ("rosybrown", "#BC8F8F"), ("royalblue", "#4169E1"),
    ("saddlebrown", "#8B4513"), ("salmon", "#FA8072"), ("sandybrown", "#F4A460"),
    ("seagreen", "#2E8B57"), ("seashell", "#FFF5EE"), ("sienna", "#A0522D"),
    ("silver", "#C0C0C0"), ("skyblue", "#87CEEB"), ("slateblue", "#6A5ACD"),
    ("slategray", "#708090"), ("slategrey", "#708090"), ("snow", "#FFFAFA"),
    ("springgreen", "#00FF7F"), ("steelblue", "#4682B4"), ("tan", "#D2B48C"),
    ("teal", "#008080"), ("thistle", "#D8BFD8"), ("tomato", "#FF6347"),
    ("turquoise", "#40E0D0"), ("violet", "#EE82EE"), ("wheat", "#F5DEB3"),
    ("white", "#FFFFFF"), ("whitesmoke", "#F5F5F5"), ("yellow", "#FFFF00"),
    ("yellowgreen", "#9ACD32") ]

/-- Modelled from the spec: `matplotlib.colors.to_hex` (matplotlib is not
part of this repository), restricted to the color specifications the app
feeds it — CSS4 color names and `#rrggbb` hex strings.  A named color is
resolved through the color table and a hex string is normalized to lower
case; anything else is outside the modelled domain (`none`, where the
library would raise `ValueError`). -/
def to_hex (s : String) : Option String :=
  match List.lookup s CSS4_COLORS with
  | some h => some h.toLower
  | none => if isHexColor s then some s.toLower else none

/-- Function `color_name_to_hex` from `src/app.py` lines 13-14:
`mcolors.to_hex(mcolors.CSS4_COLORS.get(color_name, color_name))`. -/
def color_name_to_hex (color_name : String) : Option String :=
  to_hex ((List.lookup color_name CSS4_COLORS).getD color_name)

/-- The fixed per-class style table from `src/app.py` lines 17-24:
class code ↦ (label, default color name). -/
def default_classification_styles : List (ℕ × String × String) :=
  [ (2, ("Ground", "white")),
    (3, ("Low Vegetation", "lightgreen")),
    (4, ("Medium Vegetation", "green")),
    (5, ("High Vegetation", "darkgreen")),
    (6, ("Building", "slategray")),
    (9, ("Water", "blue")) ]

/-- Style lookup `default_classification_styles.get(cls, ("Unknown", "yellow"))`. -/
def styleOf (cls : ℕ) : String × String :=
  (List.lookup cls default_classification_styles).getD ("Unknown", "yellow")

/-- The default hex color shown in the color picker for class `cls`
(`src/app.py` lines 109-110): the class's default color name converted
to hex.  The fallback branch of `getD` is unreachable for the colors of
the style table, all of which are valid CSS4 names. -/
def defaultHexOf (cls : ℕ) : String :=
  (color_name_to_hex (styleOf cls).2).getD (styleOf cls).2

/-- The `custom_colors` dictionary built by the loop at `src/app.py`
lines 106-112: one entry per selected class, holding the color-picker
value for that class.  `userPick cls` is the color the user actively
chose for class `cls` (`none` when the picker is left at its default, in
which case the picker yields the default hex color). -/
def custom_colors (selected : List ℕ) (userPick : ℕ → Option String) :
    List (ℕ × String) :=
  selected.map fun cls => (cls, (userPick cls).getD (defaultHexOf cls))

/-- Dictionary lookup `custom_colors[class_code]` (`none` models a
Python `KeyError`). -/
def lookupColor (selected : List ℕ) (userPick : ℕ → Option String) (cls : ℕ) :
    Option String :=
  List.lookup cls (custom_colors selected userPick)

/-! ### Grids, levels and the per-class contour loop
(`src/app.py` lines 114-140) -/

/-- Embedding of `np.min` over a list of rationals (0 on the empty list, where numpy
would raise; every use site guards against emptiness). -/
def minQ : List ℚ → ℚ
  | [] => 0
  | a :: l => l.foldl min a

/-- Embedding of `np.max` over a list of rationals (same convention as `minQ`). -/
def maxQ : List ℚ → ℚ
  | [] => 0
  | a :: l => l.foldl max a

/-- Embedding of `np.arange(start, stop, step)` over exact rationals: the values
`start + i*step` for `0 ≤ i < ⌈(stop - start) / step⌉` (empty for a
nonpositive count; numpy raises on `step = 0`, which here yields `[]`
via division by zero — no use site passes a zero step). -/
def arange (start stop step : ℚ) : List ℚ :=
  (List.range ⌈(stop - start) / step⌉.toNat).map fun i : ℕ => start + (i : ℚ) * step

/-- The iso-value levels of `src/app.py` line 137:
`np.arange(np.floor(np.min(z)), np.ceil(np.max(z)), 0.2)`. -/
def levels (zs : List ℚ) : List ℚ :=
  arange ((⌊minQ zs⌋ : ℤ) : ℚ) ((⌈maxQ zs⌉ : ℤ) : ℚ) 0.2

/-- A point of the loaded classified LAS file: coordinates plus its
classification code (a row of the parallel arrays `las.x`, `las.y`,
`las.z`, `las.classification`). -/
structure LasPoint where
  x : ℚ
  y : ℚ
  z : ℚ
  cls : ℕ
  deriving DecidableEq, Repr

/-- The mask-selected subset `las.x[mask], las.y[mask], las.z[mask]`
for `mask = las.classification == class_code` (`src/app.py` lines
122-123). -/
def subsetOf (pts : List LasPoint) (code : ℕ) : List LasPoint :=
  pts.filter fun p => p.cls == code

/-- An interpolated grid: rows indexed like `y_range`, columns like
`x_range`; `none` is a masked/invalid node (NaN from `griddata`, then
`np.ma.masked_invalid`). -/
abbrev Grid := List (List (Option ℚ))

/-- The type of the scattered-data interpolator
(`griddata((x, y), z, (grid_x, grid_y), method='linear')` followed by
masking): from the class subset and the two axis ranges to a grid. -/
abbrev Interp := List LasPoint → List ℚ → List ℚ → Grid

/-- Test `grid_z.mask.all()`: every node of the grid is masked (true for an
empty grid, as for numpy's `all` on an empty array). -/
def allInvalid (g : Grid) : Bool :=
  g.all fun row => row.all fun o => o.isNone

/-- Outcome of one iteration of the per-class contour loop. -/
inductive ClassOutcome where
  | tooFewPoints
  | allMasked
  | contours (levelList : List ℚ) (color : String) (width : ℚ)
  | keyError
  deriving DecidableEq, Repr

/-- One iteration of the loop at `src/app.py` lines 121-140 for class
`code`: select the subset, skip it when it has fewer than 100 points,
build the `x_range`/`y_range` grids with `np.arange`, interpolate, skip
when the grid is entirely masked, and otherwise emit contours at the
subset's levels in the color `colors code` (a failed color lookup is a
`KeyError`). -/
def processClass (interp : Interp) (colors : ℕ → Option String)
    (line_width grid_spacing : ℚ) (pts : List LasPoint) (code : ℕ) :
    ClassOutcome :=
  let sub := subsetOf pts code
  if sub.length < 100 then ClassOutcome.tooFewPoints
  else
    let xr := arange (minQ (sub.map fun p => p.x)) (maxQ (sub.map fun p => p.x)) grid_spacing
    let yr := arange (minQ (sub.map fun p => p.y)) (maxQ (sub.map fun p => p.y)) grid_spacing
    let gz := interp sub xr yr
    if allInvalid gz then ClassOutcome.allMasked
    else
      match colors code with
      | some col => ClassOutcome.contours (levels (sub.map fun p => p.z)) col line_width
      | none => ClassOutcome.keyError

/-- The whole per-class loop: process the selected classes in order,
collecting each class's outcome; a `KeyError` escapes as an exception
and aborts the remaining iterations (Python semantics). -/
def runLoop (interp : Interp) (colors : ℕ → Option String)
    (line_width grid_spacing : ℚ) (pts : List LasPoint) :
    List ℕ → Except String (List (ℕ × ClassOutcome))
  | [] => Except.ok []
  | code :: rest =>
    let o := processClass interp colors line_width grid_spacing pts code
    if o = ClassOutcome.keyError then Except.error "KeyError"
    else
      match runLoop interp colors line_width grid_spacing pts rest with
      | Except.ok l => Except.ok ((code, o) :: l)
      | Except.error e => Except.error e

/-- Modelled from the spec: a streamlit slider (streamlit is not part of
this repository) over `[lo, hi]` with a default; the widget can only
yield values inside its range, so an attempted choice is clamped and no
choice yields the default. -/
def sliderValue (lo hi default : ℚ) (choice : Option ℚ) : ℚ :=
  match choice with
  | none => default
  | some v => max lo (min hi v)

/-- The `grid_spacing` slider of `src/app.py` line 115:
`st.slider("Grid spacing (m)", 0.5, 10.0, 1.0)`. -/
def grid_spacing_slider (choice : Option ℚ) : ℚ :=
  sliderValue 0.5 10.0 1.0 choice

/-! ### The interpolation contract of `scipy.interpolate.griddata` -/

/-- Holds when `v` is a convex combination of the values `zs`: nonnegative weights
of the same length summing to 1 whose weighted sum is `v`. -/
def IsConvexComb (v : ℚ) (zs : List ℚ) : Prop :=
  ∃ w : List ℚ, w.length = zs.length ∧ (∀ q ∈ w, 0 ≤ q) ∧ w.sum = 1 ∧
    (List.zipWith (fun a b => a * b) w zs).sum = v

/-- Holds when `(px, py)` lies in the convex hull of the (x, y) samples of `sub`. -/
def InHull (px py : ℚ) (sub : List LasPoint) : Prop :=
  ∃ w : List ℚ, w.length = sub.length ∧ (∀ q ∈ w, 0 ≤ q) ∧ w.sum = 1 ∧
    (List.zipWith (fun a p => a * p.x) w sub).sum = px ∧
    (List.zipWith (fun a p => a * p.y) w sub).sum = py

/-- Modelled from the spec: the contract of
`scipy.interpolate.griddata((x, y), z, (grid_x, grid_y), method='linear')`
followed by `np.ma.masked_invalid` (scipy is not part of this
repository).  Per §4.4 the grid is shaped like `meshgrid(xr, yr)`; an
unmasked node lies inside the convex hull of the subset's (x, y) samples
and its value is a linear barycentric — hence convex — combination of
the subset's z values; nodes outside the hull are NaN and get masked,
never extrapolated. -/
def IsLinearGriddata (sub : List LasPoint) (xr yr : List ℚ) (g : Grid) : Prop :=
  g.length = yr.length ∧
  (∀ row ∈ g, row.length = xr.length) ∧
  (∀ j i v, (g.get? j).bind (fun row => row.get? i) = some (some v) →
    (∃ vx vy, xr.get? i = some vx ∧ yr.get? j = some vy ∧ InHull vx vy sub) ∧
    IsConvexComb v (sub.map fun p => p.z))

/-! ### A minimal contract of the contour tracer -/

/-- Holds when `a` is the value of some unmasked node of the grid. -/
def ValueIn (g : Grid) (a : ℚ) : Prop :=
  ∃ row ∈ g, some a ∈ row

/-- Modelled from the spec: marching-squares contour tracing
(`ax.contour`, matplotlib is not part of this repository) produces a
line at level `v` only where the field strictly crosses `v`, i.e. only
when some unmasked node lies strictly below and some unmasked node
strictly above `v`. -/
def LevelCrossed (g : Grid) (v : ℚ) : Prop :=
  ∃ a b, ValueIn g a ∧ ValueIn g b ∧ a < v ∧ v < b

/-- The grid columns reach up to `M`: some column coordinate is ≥ `M`. -/
def coversUpTo (cols : List ℚ) (M : ℚ) : Prop :=
  ∃ u ∈ cols, M ≤ u

/-! ### Concrete objects used by witnesses and counterexamples -/

/-- An interpolator yielding an entirely masked grid of the requested
shape. -/
def emptyInterp : Interp :=
  fun _ xr yr => yr.map fun _ => xr.map fun _ => none

/-- An interpolator yielding a single valid node of elevation 0. -/
def constInterp0 : Interp :=
  fun _ _ _ => [[some 0]]

/-- A cloud of 100 class-2 points along the diagonal, all at elevation 0. -/
def pts100 : List LasPoint :=
  (List.range 100).map fun i : ℕ => ⟨(i : ℚ), (i : ℚ), 0, 2⟩

/-- A user color choice supplying `#112233` for class 2 and nothing for
any other class. -/
def pickC5 : ℕ → Option String :=
  fun c => if c = 2 then some "#112233" else none

/-! ## Theorems -/

/-! ### C8: fixed stage order of the pipeline description -/

/-- Claim C8: The pipeline description for any input/output path pair lists
its stages in the fixed order input, SMRF (scalar 1.2, slope 0.2,
threshold 0.45, window 16.0), assign `Classification[:]=0`, HAG, range
`Classification[2:2]`, output; in particular the reset-to-0 stage sits
strictly after the SMRF ground labeling and strictly before the [2:2]
range selection, so the range filter operates on the already-reset
classification column. -/
theorem pipeline_fixed_stage_order (inp out : String) :
    pipeline_json inp out =
      [ Stage.path inp,
        Stage.smrf 1.2 0.2 0.45 16.0,
        Stage.assign "Classification[:]=0",
        Stage.hag,
        Stage.range "Classification[2:2]",
        Stage.path out ] ∧
    List.findIdx isSmrfStage (pipeline_json inp out) <
      List.findIdx isResetStage (pipeline_json inp out) ∧
    List.findIdx isResetStage (pipeline_json inp out) <
      List.findIdx isRangeStage (pipeline_json inp out) := by
  refine ⟨rfl, ?_, ?_⟩
  · show (1 : ℕ) < 2
    decide
  · show (2 : ℕ) < 4
    decide

/-! ### C1: idempotence and the position of the reset stage -/

/-- Claim C1, counterexample: The claim places the reset-to-0 step before
the classification invocation; in the pipeline actually built by the app
the reset stage (index 2) comes strictly after the SMRF classification
stage (index 1), so the reset does not run before classification. -/
theorem reset_not_before_smrf :
    ¬ List.findIdx isResetStage (pipeline_json "in.laz" "out.laz") <
        List.findIdx isSmrfStage (pipeline_json "in.laz" "out.laz") := by
  decide

/-- Claim C1, amended: Re-running the pipeline on a buffer whose
classification column was reset to 0 yields a result identical to the
first run, for every buffer, every semantics of the external filters and
every path pair — the pipeline never reads the incoming classification
column (SMRF labels from raw coordinates and every later stage only sees
SMRF's output).  However, the reset-to-0 stage is placed after the SMRF
classification stage inside the pipeline, not before it. -/
theorem classification_idempotent_reset_after_smrf
    (sem : PdalSem) (inp out : String) (b : Buffer) :
    runPipeline sem (resetClassification b) (pipeline_json inp out) =
      runPipeline sem b (pipeline_json inp out) ∧
    List.findIdx isSmrfStage (pipeline_json inp out) <
      List.findIdx isResetStage (pipeline_json inp out) := by
  constructor
  · rfl
  · show (1 : ℕ) < 2
    decide

/-! ### C2: class subsets with fewer than 100 points are skipped -/

/-- A class whose subset has fewer than 100 points is skipped by the
`continue` at `src/app.py` line 126, before any grid or color lookup. -/
theorem processClass_small (interp : Interp) (colors : ℕ → Option String)
    (lw Δ : ℚ) (pts : List LasPoint) (code : ℕ)
    (h : (subsetOf pts code).length < 100) :
    processClass interp colors lw Δ pts code = ClassOutcome.tooFewPoints := by
  unfold processClass
  simp [h]

/-- Claim C2: For every selected class whose point subset has fewer than
100 points, the per-class contour loop produces no grid and no contours
for that class (outcome `tooFewPoints`), raises no error, and the
processing of every sibling class is exactly what it would be were the
small class absent: the loop's result is the result on the sibling list
with the small class's skip entry spliced in. -/
theorem small_class_skipped_siblings_unaffected
    (interp : Interp) (colors : ℕ → Option String) (lw Δ : ℚ)
    (pts : List LasPoint) (sel₁ sel₂ : List ℕ) (code : ℕ)
    (h : (subsetOf pts code).length < 100) :
    processClass interp colors lw Δ pts code = ClassOutcome.tooFewPoints ∧
    runLoop interp colors lw Δ pts (sel₁ ++ code :: sel₂) =
      (do
        let l₁ ← runLoop interp colors lw Δ pts sel₁
        let l₂ ← runLoop interp colors lw Δ pts sel₂
        pure (l₁ ++ (code, ClassOutcome.tooFewPoints) :: l₂)) := by
  have hproc := processClass_small interp colors lw Δ pts code h
  refine ⟨hproc, ?_⟩
  induction sel₁ with
  | nil =>
      cases hr : runLoop interp colors lw Δ pts sel₂ with
      | ok l =>
          simp [runLoop, hproc, hr, Bind.bind, Except.bind, Pure.pure, Except.pure]
      | error e =>
          simp [runLoop, hproc, hr, Bind.bind, Except.bind, Pure.pure, Except.pure]
  | cons a s ih =>
      by_cases hka : processClass interp colors lw Δ pts a = ClassOutcome.keyError
      · simp [runLoop, hka, Bind.bind, Except.bind]
      · cases hs : runLoop interp colors lw Δ pts s with
        | ok l₁ =>
            cases h₂ : runLoop interp colors lw Δ pts sel₂ with
            | ok l₂ =>
                simp [runLoop, hka, hs, h₂, Bind.bind, Except.bind,
                  Pure.pure, Except.pure] at ih ⊢
                simp [ih]
            | error e =>
                simp [runLoop, hka, hs, h₂, Bind.bind, Except.bind,
                  Pure.pure, Except.pure] at ih ⊢
                simp [ih]
        | error e =>
            simp [runLoop, hka, hs, Bind.bind, Except.bind,
              Pure.pure, Except.pure] at ih ⊢
            simp [ih]

/-- Claim C2, witness: A concrete run: on an empty cloud, class 3 (subset
of 0 < 100 points) is skipped and its sibling class 2 is processed as if
class 3 were absent. -/
theorem small_class_skipped_witness :
    (subsetOf ([] : List LasPoint) 3).length < 100 ∧
    (processClass emptyInterp (fun _ => none) 1 1 [] 3 = ClassOutcome.tooFewPoints ∧
      runLoop emptyInterp (fun _ => none) 1 1 [] ([2] ++ 3 :: []) =
        (do
          let l₁ ← runLoop emptyInterp (fun _ => none) 1 1 [] [2]
          let l₂ ← runLoop emptyInterp (fun _ => none) 1 1 [] []
          pure (l₁ ++ (3, ClassOutcome.tooFewPoints) :: l₂))) :=
  ⟨by decide,
    small_class_skipped_siblings_unaffected emptyInterp (fun _ => none) 1 1 [] [2] [] 3
      (by decide)⟩

/-! ### C9: the color lookup in the loop is always defined -/

/-- A class whose color lookup succeeds can never produce the `KeyError`
outcome. -/
theorem processClass_ne_keyError (interp : Interp) (colors : ℕ → Option String)
    (lw Δ : ℚ) (pts : List LasPoint) (code : ℕ)
    (h : colors code ≠ none) :
    processClass interp colors lw Δ pts code ≠ ClassOutcome.keyError := by
  cases hc : colors code with
  | none => exact absurd hc h
  | some col =>
      simp only [processClass, hc]
      split
      · simp
      · split
        · simp
        · simp

/-- When every class of the list has a defined color, the loop never
raises and collects every class's outcome in order. -/
theorem runLoop_ok_of_colors_total (interp : Interp) (colors : ℕ → Option String)
    (lw Δ : ℚ) (pts : List LasPoint) :
    ∀ l : List ℕ, (∀ code ∈ l, colors code ≠ none) →
      runLoop interp colors lw Δ pts l =
        Except.ok (l.map fun code => (code, processClass interp colors lw Δ pts code)) := by
  intro l
  induction l with
  | nil => intro _; rfl
  | cons a s ih =>
      intro hl
      have ha : processClass interp colors lw Δ pts a ≠ ClassOutcome.keyError :=
        processClass_ne_keyError interp colors lw Δ pts a (hl a (by simp))
      have hs := ih fun code hc => hl code (by simp [hc])
      simp [runLoop, ha, hs]

/-- The dictionary built over the selected classes holds, for every
selected class, the picker value for that class: the user's choice when
one was made, the class's default hex color otherwise. -/
theorem lookupColor_of_mem (selected : List ℕ) (userPick : ℕ → Option String) :
    ∀ c ∈ selected,
      lookupColor selected userPick c = some ((userPick c).getD (defaultHexOf c)) := by
  unfold lookupColor custom_colors
  induction selected with
  | nil => intro c hc; cases hc
  | cons a s ih =>
      intro c hc
      simp only [List.map_cons, List.lookup]
      by_cases hca : c = a
      · subst hca
        simp
      · have hbeq : (c == a) = false := by simpa using hca
        simp only [hbeq]
        exact ih c (by
          rcases List.mem_cons.mp hc with h' | h'
          · exact absurd h' hca
          · exact h')

/-- Claim C9: At contour-generation time `custom_colors` holds a color for
every selected class, so the lookup `custom_colors[class_code]` inside
the per-class loop — which visits exactly the selected classes — is
always defined and the loop can never fail with a `KeyError`: it returns
the outcomes of all selected classes. -/
theorem custom_colors_defined_for_selected
    (selected : List ℕ) (userPick : ℕ → Option String)
    (interp : Interp) (lw Δ : ℚ) (pts : List LasPoint) :
    (∀ c ∈ selected, lookupColor selected userPick c ≠ none) ∧
    runLoop interp (lookupColor selected userPick) lw Δ pts selected =
      Except.ok (selected.map fun c =>
        (c, processClass interp (lookupColor selected userPick) lw Δ pts c)) := by
  have htot : ∀ c ∈ selected, lookupColor selected userPick c ≠ none := by
    intro c hc
    rw [lookupColor_of_mem selected userPick c hc]
    simp
  exact ⟨htot, runLoop_ok_of_colors_total interp _ lw Δ pts selected htot⟩

/-- Claim C9, witness: Concrete selected classes `[2, 7]`: the lookup for
class 2 is defined and the loop completes without error. -/
theorem custom_colors_defined_witness :
    lookupColor [2, 7] pickC5 2 ≠ none ∧
    runLoop constInterp0 (lookupColor [2, 7] pickC5) 1 1 pts100 [2, 7] =
      Except.ok ([2, 7].map fun c =>
        (c, processClass constInterp0 (lookupColor [2, 7] pickC5) 1 1 pts100 c)) := by
  have h := custom_colors_defined_for_selected [2, 7] pickC5 constInterp0 1 1 pts100
  exact ⟨h.1 2 (by decide), h.2⟩

/-! ### Arithmetic facts about `minQ`, `maxQ` and `arange` -/

theorem foldl_min_le_init (l : List ℚ) : ∀ acc : ℚ, l.foldl min acc ≤ acc := by
  induction l with
  | nil => intro acc; simp
  | cons b t ih =>
      intro acc
      calc (b :: t).foldl min acc = t.foldl min (min acc b) := rfl
        _ ≤ min acc b := ih (min acc b)
        _ ≤ acc := min_le_left _ _

theorem foldl_min_le_mem (l : List ℚ) :
    ∀ (acc z : ℚ), z = acc ∨ z ∈ l → l.foldl min acc ≤ z := by
  induction l with
  | nil =>
      intro acc z hz
      rcases hz with rfl | hz
      · simp
      · cases hz
  | cons b t ih =>
      intro acc z hz
      rcases hz with rfl | hz
      · exact foldl_min_le_init (b :: t) z
      · rcases List.mem_cons.mp hz with rfl | hz
        · calc (z :: t).foldl min acc = t.foldl min (min acc z) := rfl
            _ ≤ min acc z := foldl_min_le_init t _
            _ ≤ z := min_le_right _ _
        · exact ih (min acc b) z (Or.inr hz)

theorem foldl_max_ge_init (l : List ℚ) : ∀ acc : ℚ, acc ≤ l.foldl max acc := by
  induction l with
  | nil => intro acc; simp
  | cons b t ih =>
      intro acc
      calc acc ≤ max acc b := le_max_left _ _
        _ ≤ t.foldl max (max acc b) := ih (max acc b)
        _ = (b :: t).foldl max acc := rfl

theorem foldl_max_ge_mem (l : List ℚ) :
    ∀ (acc z : ℚ), z = acc ∨ z ∈ l → z ≤ l.foldl max acc := by
  induction l with
  | nil =>
      intro acc z hz
      rcases hz with rfl | hz
      · simp
      · cases hz
  | cons b t ih =>
      intro acc z hz
      rcases hz with rfl | hz
      · exact foldl_max_ge_init (b :: t) z
      · rcases List.mem_cons.mp hz with rfl | hz
        · calc z ≤ max acc z := le_max_right _ _
            _ ≤ t.foldl max (max acc z) := foldl_max_ge_init t _
            _ = (z :: t).foldl max acc := rfl
        · exact ih (max acc b) z (Or.inr hz)

theorem minQ_le_mem (l : List ℚ) (z : ℚ) (hz : z ∈ l) : minQ l ≤ z := by
  cases l with
  | nil => cases hz
  | cons a t =>
      rcases List.mem_cons.mp hz with rfl | hz
      · exact foldl_min_le_mem t z z (Or.inl rfl)
      · exact foldl_min_le_mem t a z (Or.inr hz)

theorem maxQ_ge_mem (l : List ℚ) (z : ℚ) (hz : z ∈ l) : z ≤ maxQ l := by
  cases l with
  | nil => cases hz
  | cons a t =>
      rcases List.mem_cons.mp hz with rfl | hz
      · exact foldl_max_ge_mem t z z (Or.inl rfl)
      · exact foldl_max_ge_mem t a z (Or.inr hz)

theorem minQ_le_maxQ (l : List ℚ) (hne : l ≠ []) : minQ l ≤ maxQ l := by
  cases l with
  | nil => exact absurd rfl hne
  | cons a t =>
      exact le_trans (minQ_le_mem (a :: t) a (by simp)) (maxQ_ge_mem (a :: t) a (by simp))

theorem foldl_min_ge_const (t : List ℚ) :
    ∀ (acc c : ℚ), c ≤ acc → (∀ z ∈ t, c ≤ z) → c ≤ t.foldl min acc := by
  induction t with
  | nil => intro acc c hacc _; simpa using hacc
  | cons x xs ih =>
      intro acc c hacc hall
      exact ih (min acc x) c (le_min hacc (hall x (by simp)))
        fun z hz => hall z (by simp [hz])

theorem foldl_max_le_const (t : List ℚ) :
    ∀ (acc c : ℚ), acc ≤ c → (∀ z ∈ t, z ≤ c) → t.foldl max acc ≤ c := by
  induction t with
  | nil => intro acc c hacc _; simpa using hacc
  | cons x xs ih =>
      intro acc c hacc hall
      exact ih (max acc x) c (max_le hacc (hall x (by simp)))
        fun z hz => hall z (by simp [hz])

theorem minQ_const (l : List ℚ) (c : ℚ) (hne : l ≠ []) (h : ∀ z ∈ l, z = c) :
    minQ l = c := by
  cases l with
  | nil => exact absurd rfl hne
  | cons a t =>
      have hub : minQ (a :: t) ≤ c := (h a (by simp)) ▸ minQ_le_mem (a :: t) a (by simp)
      have hlb : c ≤ minQ (a :: t) :=
        foldl_min_ge_const t a c (le_of_eq (h a (by simp)).symm)
          fun z hz => le_of_eq (h z (by simp [hz])).symm
      exact le_antisymm hub hlb

theorem maxQ_const (l : List ℚ) (c : ℚ) (hne : l ≠ []) (h : ∀ z ∈ l, z = c) :
    maxQ l = c := by
  cases l with
  | nil => exact absurd rfl hne
  | cons a t =>
      have hub : maxQ (a :: t) ≤ c :=
        foldl_max_le_const t a c (le_of_eq (h a (by simp)))
          fun z hz => le_of_eq (h z (by simp [hz]))
      have hlb : c ≤ maxQ (a :: t) := (h a (by simp)) ▸ maxQ_ge_mem (a :: t) a (by simp)
      exact le_antisymm hub hlb

/-- Membership in `arange`: exactly the progression values below `stop`. -/
theorem mem_arange (start stop step v : ℚ) (hstep : 0 < step) :
    v ∈ arange start stop step ↔
      ∃ k : ℕ, v = start + k * step ∧ v < stop := by
  unfold arange
  constructor
  · intro hv
    obtain ⟨i, hi, hfi⟩ := List.mem_map.mp hv
    have hin : i < ⌈(stop - start) / step⌉.toNat := List.mem_range.mp hi
    have h1 : (i : ℤ) < ⌈(stop - start) / step⌉ := Int.lt_toNat.mp hin
    have h2 : (i : ℚ) < (stop - start) / step := by exact_mod_cast Int.lt_ceil.mp h1
    have h3 : (i : ℚ) * step < stop - start := (lt_div_iff₀ hstep).mp h2
    exact ⟨i, hfi.symm, by rw [← hfi]; linarith⟩
  · rintro ⟨k, hv, hk⟩
    refine List.mem_map.mpr ⟨k, List.mem_range.mpr ?_, hv.symm⟩
    have h3 : (k : ℚ) * step < stop - start := by rw [hv] at hk; linarith
    have h2 : (k : ℚ) < (stop - start) / step := (lt_div_iff₀ hstep).mpr h3
    have h1 : (k : ℤ) < ⌈(stop - start) / step⌉ := Int.lt_ceil.mpr (by exact_mod_cast h2)
    exact Int.lt_toNat.mpr h1

/-- Indexing `arange`: the i-th column is `start + i*step` and below `stop`. -/
theorem arange_get?_some (start stop step : ℚ) (i : ℕ) (v : ℚ) (hstep : 0 < step)
    (h : (arange start stop step).get? i = some v) :
    v = start + i * step ∧ start + (i : ℚ) * step < stop := by
  unfold arange at h
  rw [List.get?_map] at h
  cases hr : (List.range ⌈(stop - start) / step⌉.toNat).get? i with
  | none => rw [hr] at h; cases h
  | some j =>
      rw [hr] at h
      have hlen : i < ⌈(stop - start) / step⌉.toNat := by
        obtain ⟨hlt, _⟩ := List.get?_eq_some.mp hr
        simpa using hlt
      have hji : j = i := by
        rw [List.get?_range hlen] at hr
        exact (Option.some_inj.mp hr).symm
      subst hji
      have hv : v = start + j * step := by
        simpa using h.symm
      refine ⟨hv, ?_⟩
      have h1 : (j : ℤ) < ⌈(stop - start) / step⌉ := Int.lt_toNat.mp hlen
      have h2 : (j : ℚ) < (stop - start) / step := by exact_mod_cast Int.lt_ceil.mp h1
      have h3 : (j : ℚ) * step < stop - start := (lt_div_iff₀ hstep).mp h2
      linarith

/-- First column of a nonempty `arange` is `start`. -/
theorem arange_head (start stop step : ℚ) (hlt : start < stop) (hstep : 0 < step) :
    (arange start stop step).get? 0 = some start := by
  have hq : 0 < (stop - start) / step := div_pos (by linarith) hstep
  have h1 : (0 : ℤ) < ⌈(stop - start) / step⌉ := Int.lt_ceil.mpr (by exact_mod_cast hq)
  have h2 : 0 < ⌈(stop - start) / step⌉.toNat := Int.lt_toNat.mpr h1
  unfold arange
  rw [List.get?_map, List.get?_range h2]
  simp

/-! ### C3: iso-value levels -/

/-- Claim C3, counterexample: A subset whose z values are all equal to
10.5 is a constant field, yet the level set
`np.arange(floor(10.5), ceil(10.5), 0.2) = np.arange(10, 11, 0.2)` is
not empty — the claim's "constant field ⟹ empty level set" fails for a
non-integer constant elevation. -/
theorem constant_field_levels_nonempty :
    (∀ z ∈ List.replicate 150 ((21 : ℚ)/2), z = (21 : ℚ)/2) ∧
    levels (List.replicate 150 ((21 : ℚ)/2)) ≠ [] := by
  constructor
  · intro z hz
    exact List.eq_of_mem_replicate hz
  · have hmin : minQ (List.replicate 150 ((21 : ℚ)/2)) = 21/2 :=
      minQ_const _ _ (by simp) fun z hz => List.eq_of_mem_replicate hz
    have hmax : maxQ (List.replicate 150 ((21 : ℚ)/2)) = 21/2 :=
      maxQ_const _ _ (by simp) fun z hz => List.eq_of_mem_replicate hz
    have hfloor : ⌊(21 : ℚ)/2⌋ = 10 := by norm_num
    have hceil : ⌈(21 : ℚ)/2⌉ = 11 := by norm_num [Int.ceil_eq_iff]
    unfold levels
    rw [hmin, hmax, hfloor, hceil]
    unfold arange
    have h5 : ⌈((((11 : ℤ) : ℚ)) - (((10 : ℤ) : ℚ))) / (0.2 : ℚ)⌉ = 5 := by norm_num
    rw [h5]
    simp

/-- Claim C3, amended: The iso-value levels for a class are exactly the
arithmetic progression from floor(min z) (inclusive) to ceil(max z)
(exclusive) with step 0.2, with min z and max z taken over that class's
own point subset.  For a subset whose z values are all equal to c, the
level set is empty exactly when c is an integer (floor c = c, as in the
spec's flat-patch-at-z=10 scenario); and for every constant field —
whatever its level set — no level is ever strictly crossed, so zero
contour lines are produced. -/
theorem levels_progression_constant_field :
    (∀ (zs : List ℚ) (v : ℚ),
      v ∈ levels zs ↔
        ∃ k : ℕ, v = ((⌊minQ zs⌋ : ℤ) : ℚ) + (k : ℚ) * (0.2 : ℚ) ∧
          v < ((⌈maxQ zs⌉ : ℤ) : ℚ)) ∧
    (∀ (zs : List ℚ) (c : ℚ), zs ≠ [] → (∀ z ∈ zs, z = c) →
      (levels zs = [] ↔ ((⌊c⌋ : ℤ) : ℚ) = c)) ∧
    (∀ (g : Grid) (c v : ℚ), (∀ a, ValueIn g a → a = c) → ¬ LevelCrossed g v) := by
  refine ⟨?_, ?_, ?_⟩
  · intro zs v
    unfold levels
    exact mem_arange _ _ _ v (by norm_num)
  · intro zs c hne hconst
    unfold levels
    rw [minQ_const zs c hne hconst, maxQ_const zs c hne hconst]
    constructor
    · intro hemp
      by_contra hint
      have hlt : ((⌊c⌋ : ℤ) : ℚ) < c := lt_of_le_of_ne (Int.floor_le c) hint
      have hlt2 : ((⌊c⌋ : ℤ) : ℚ) < ((⌈c⌉ : ℤ) : ℚ) := lt_of_lt_of_le hlt (Int.le_ceil c)
      have hh := arange_head _ _ _ hlt2 (by norm_num : (0 : ℚ) < 0.2)
      rw [hemp] at hh
      cases hh
    · intro hic
      have hc : ⌈c⌉ = ⌊c⌋ := by
        rw [← hic]
        exact Int.ceil_intCast _
      rw [hc]
      unfold arange
      have h0 : ((((⌊c⌋ : ℤ) : ℚ)) - (((⌊c⌋ : ℤ) : ℚ))) / (0.2 : ℚ) = 0 := by
        simp
      rw [h0]
      simp
  · rintro g c v hconst ⟨a, b, ha, hb, hav, hvb⟩
    rw [hconst a ha] at hav
    rw [hconst b hb] at hvb
    linarith

/-- Claim C3, witness: The spec's scenario: a flat patch of 150 points at
integer elevation z = 10 yields an empty level set. -/
theorem levels_witness_flat10 :
    levels (List.replicate 150 (10 : ℚ)) = [] := by
  have h := levels_progression_constant_field.2.1 (List.replicate 150 (10 : ℚ)) 10
    (by simp) (fun z hz => List.eq_of_mem_replicate hz)
  exact h.mpr (by norm_num)

/-! ### C7: grid columns cover `[min_x, max_x)` but not the whole box -/

/-- Claim C7, counterexample: For the x samples {0, 1} and spacing 2, the
grid columns are just `[0]`: no column reaches `max_x = 1`, so the grid
does not fully cover the bounding box of the subset. -/
theorem grid_not_covering_bbox :
    minQ [0, 1] = 0 ∧ maxQ [0, 1] = 1 ∧
    arange (minQ [0, 1]) (maxQ [0, 1]) 2 = [0] ∧
    ¬ coversUpTo (arange (minQ [0, 1]) (maxQ [0, 1]) 2) (maxQ [0, 1]) := by
  have hmin : minQ ([0, 1] : List ℚ) = 0 := by norm_num [minQ, List.foldl, min_def]
  have hmax : maxQ ([0, 1] : List ℚ) = 1 := by norm_num [maxQ, List.foldl, max_def]
  have hceil : ⌈((1 : ℚ) - 0) / 2⌉ = 1 := by norm_num [Int.ceil_eq_iff]
  have har : arange 0 1 2 = [0] := by
    unfold arange
    rw [hceil]
    simp [List.range_succ]
  refine ⟨hmin, hmax, ?_, ?_⟩
  · rw [hmin, hmax]
    exact har
  · rw [hmin, hmax, har]
    simp [coversUpTo]

/-- Claim C7, amended: For a positive spacing Δ, the i-th grid column over
a class subset's x samples is exactly `min_x + i*Δ`, lies in the
half-open interval `[min_x, max_x)` — so `min_x + i*Δ ≤ max_x` holds for
every valid i, and the grid never extends beyond the bounding box — but
the columns need not reach `max_x`, i.e. the grid does not in general
fully cover the bounding box (see the counterexample). -/
theorem xrange_halfopen_within_bbox
    (xs : List ℚ) (Δ : ℚ) (i : ℕ) (v : ℚ) (hΔ : 0 < Δ)
    (hget : (arange (minQ xs) (maxQ xs) Δ).get? i = some v) :
    v = minQ xs + (i : ℚ) * Δ ∧ minQ xs ≤ v ∧ v < maxQ xs ∧
      minQ xs + (i : ℚ) * Δ ≤ maxQ xs := by
  obtain ⟨hv, hlt⟩ := arange_get?_some _ _ _ i v hΔ hget
  refine ⟨hv, ?_, ?_, le_of_lt hlt⟩
  · rw [hv]
    have hnn : 0 ≤ (i : ℚ) * Δ := mul_nonneg (by positivity) hΔ.le
    linarith
  · rw [hv]
    exact hlt

/-- Claim C7, witness: The concrete grid of the counterexample
configuration: its 0-th column is `min_x + 0*Δ = 0`, within
`[min_x, max_x) = [0, 1)`. -/
theorem xrange_witness :
    (0 : ℚ) = minQ [0, 1] + ((0 : ℕ) : ℚ) * 2 ∧ minQ [0, 1] ≤ 0 ∧
      (0 : ℚ) < maxQ [0, 1] ∧ minQ [0, 1] + ((0 : ℕ) : ℚ) * 2 ≤ maxQ [0, 1] := by
  apply xrange_halfopen_within_bbox [0, 1] 2 0 0 (by norm_num)
  have hmin : minQ ([0, 1] : List ℚ) = 0 := by norm_num [minQ, List.foldl, min_def]
  have hmax : maxQ ([0, 1] : List ℚ) = 1 := by norm_num [maxQ, List.foldl, max_def]
  rw [hmin, hmax]
  exact arange_head 0 1 2 (by norm_num) (by norm_num)

/-! ### C4: interpolated nodes stay within the subset's elevation range -/

theorem zipWith_sum_le_max (w : List ℚ) :
    ∀ (zs : List ℚ) (M : ℚ), w.length = zs.length → (∀ q ∈ w, 0 ≤ q) →
      (∀ z ∈ zs, z ≤ M) →
      (List.zipWith (fun a b => a * b) w zs).sum ≤ w.sum * M := by
  induction w with
  | nil => intro zs M _ _ _; simp
  | cons a t ih =>
      intro zs M hlen hw hz
      cases zs with
      | nil => simp at hlen
      | cons b u =>
          simp only [List.zipWith_cons_cons, List.sum_cons]
          have h1 : a * b ≤ a * M :=
            mul_le_mul_of_nonneg_left (hz b (by simp)) (hw a (by simp))
          have h2 := ih u M (by simpa using hlen) (fun q hq => hw q (by simp [hq]))
            (fun z hz' => hz z (by simp [hz']))
          have : (a + t.sum) * M = a * M + t.sum * M := by ring
          rw [this]
          linarith

theorem zipWith_sum_ge_min (w : List ℚ) :
    ∀ (zs : List ℚ) (m : ℚ), w.length = zs.length → (∀ q ∈ w, 0 ≤ q) →
      (∀ z ∈ zs, m ≤ z) →
      w.sum * m ≤ (List.zipWith (fun a b => a * b) w zs).sum := by
  induction w with
  | nil => intro zs m _ _ _; simp
  | cons a t ih =>
      intro zs m hlen hw hz
      cases zs with
      | nil => simp at hlen
      | cons b u =>
          simp only [List.zipWith_cons_cons, List.sum_cons]
          have h1 : a * m ≤ a * b :=
            mul_le_mul_of_nonneg_left (hz b (by simp)) (hw a (by simp))
          have h2 := ih u m (by simpa using hlen) (fun q hq => hw q (by simp [hq]))
            (fun z hz' => hz z (by simp [hz']))
          have : (a + t.sum) * m = a * m + t.sum * m := by ring
          rw [this]
          linarith

/-- A convex combination of a list of values lies between their minimum
and maximum. -/
theorem convexComb_bounds (v : ℚ) (zs : List ℚ) (h : IsConvexComb v zs) :
    minQ zs ≤ v ∧ v ≤ maxQ zs := by
  obtain ⟨w, hlen, hw, hsum, hval⟩ := h
  have hub := zipWith_sum_le_max w zs (maxQ zs) hlen hw fun z hz => maxQ_ge_mem zs z hz
  have hlb := zipWith_sum_ge_min w zs (minQ zs) hlen hw fun z hz => minQ_le_mem zs z hz
  rw [hsum, one_mul] at hub hlb
  rw [hval] at hub hlb
  exact ⟨hlb, hub⟩

/-- Claim C4: For every class subset and every grid node of an
interpolation result satisfying the griddata contract: an unmasked node
value lies within the closed interval `[min_z, max_z]` of the subset's z
values, and every unmasked node lies inside the convex hull of the
subset's (x, y) samples — equivalently, nodes outside the hull are
always masked, never extrapolated. -/
theorem griddata_bounds_and_hull
    (sub : List LasPoint) (xr yr : List ℚ) (g : Grid)
    (hg : IsLinearGriddata sub xr yr g)
    (j i : ℕ) (v : ℚ)
    (hnode : (g.get? j).bind (fun row => row.get? i) = some (some v)) :
    (minQ (sub.map fun p => p.z) ≤ v ∧ v ≤ maxQ (sub.map fun p => p.z)) ∧
    ∃ vx vy, xr.get? i = some vx ∧ yr.get? j = some vy ∧ InHull vx vy sub := by
  obtain ⟨-, -, hcontract⟩ := hg
  obtain ⟨hhull, hconv⟩ := hcontract j i v hnode
  exact ⟨convexComb_bounds v _ hconv, hhull⟩

/-- Claim C4, witness: A one-point subset at elevation 5 with a single
valid grid node of value 5: the contract holds and the node value lies
in `[min_z, max_z] = [5, 5]`. -/
theorem griddata_bounds_witness :
    (minQ (([⟨0, 0, 5, 2⟩] : List LasPoint).map fun p => p.z) ≤ 5 ∧
      (5 : ℚ) ≤ maxQ (([⟨0, 0, 5, 2⟩] : List LasPoint).map fun p => p.z)) ∧
    ∃ vx vy, ([0] : List ℚ).get? 0 = some vx ∧ ([0] : List ℚ).get? 0 = some vy ∧
      InHull vx vy [⟨0, 0, 5, 2⟩] := by
  apply griddata_bounds_and_hull [⟨0, 0, 5, 2⟩] [0] [0] [[some 5]] ?_ 0 0 5 rfl
  refine ⟨rfl, by simp, ?_⟩
  intro j i v h
  cases j with
  | succ n => simp [List.get?] at h
  | zero =>
      cases i with
      | succ n => simp [List.get?] at h
      | zero =>
          have hv : v = 5 := by simpa using h.symm
          subst hv
          constructor
          · refine ⟨0, 0, rfl, rfl, [1], by simp, ?_, by simp, ?_, ?_⟩
            · intro q hq
              simp at hq
              rw [hq]
              norm_num
            · simp
            · simp
          · refine ⟨[1], by simp, ?_, by simp, ?_⟩
            · intro q hq
              simp at hq
              rw [hq]
              norm_num
            · simp

/-! ### Evaluation facts about the concrete witness objects -/

theorem subsetOf_pts100 : subsetOf pts100 2 = pts100 := by
  unfold subsetOf
  rw [List.filter_eq_self]
  intro p hp
  simp only [pts100, List.mem_map, List.mem_range] at hp
  obtain ⟨i, _, rfl⟩ := hp
  rfl

theorem pts100_length : pts100.length = 100 := by
  unfold pts100
  rw [List.length_map, List.length_range]

theorem pts100_z_zero : ∀ z ∈ pts100.map (fun p => p.z), z = 0 := by
  intro z hz
  simp only [pts100, List.map_map, List.mem_map, List.mem_range] at hz
  obtain ⟨i, _, rfl⟩ := hz
  rfl

theorem pts100_z_ne_nil : pts100.map (fun p => p.z) ≠ [] := by
  intro h
  rw [List.map_eq_nil] at h
  unfold pts100 at h
  rw [List.map_eq_nil, List.range_eq_nil] at h
  omega

theorem levels_pts100 : levels (pts100.map fun p => p.z) = [] := by
  unfold levels
  rw [minQ_const _ 0 pts100_z_ne_nil pts100_z_zero,
    maxQ_const _ 0 pts100_z_ne_nil pts100_z_zero]
  unfold arange
  norm_num

theorem emptyInterp_allInvalid (sub : List LasPoint) (xr yr : List ℚ) :
    allInvalid (emptyInterp sub xr yr) = true := by
  unfold allInvalid emptyInterp
  rw [List.all_eq_true]
  intro row hrow
  simp only [List.mem_map] at hrow
  obtain ⟨y, _, rfl⟩ := hrow
  rw [List.all_eq_true]
  intro o ho
  simp only [List.mem_map] at ho
  obtain ⟨x, _, rfl⟩ := ho
  rfl

/-! ### C5: per-class contour styling -/

/-- Claim C5: Every contour emitted for a selected class is styled with
the entry of `custom_colors` for that class, which is the caller's
supplied color when one was supplied and otherwise the class's entry in
the fixed default style map, converted to hex; the default style map is
exactly {2: Ground/white, 3: Low Vegetation/lightgreen, 4: Medium
Vegetation/green, 5: High Vegetation/darkgreen, 6: Building/slategray,
9: Water/blue}, and any class code outside it gets the style
("Unknown", "yellow"). -/
theorem contour_style_resolution
    (selected : List ℕ) (userPick : ℕ → Option String) (interp : Interp)
    (lw Δ : ℚ) (pts : List LasPoint) (code : ℕ) (lv : List ℚ) (col : String) (w : ℚ)
    (hc : code ∈ selected)
    (hout : processClass interp (lookupColor selected userPick) lw Δ pts code =
      ClassOutcome.contours lv col w) :
    col = (userPick code).getD (defaultHexOf code) ∧
    (∀ u, userPick code = some u → col = u) ∧
    (userPick code = none →
      col = (color_name_to_hex (styleOf code).2).getD (styleOf code).2) ∧
    styleOf 2 = ("Ground", "white") ∧
    styleOf 3 = ("Low Vegetation", "lightgreen") ∧
    styleOf 4 = ("Medium Vegetation", "green") ∧
    styleOf 5 = ("High Vegetation", "darkgreen") ∧
    styleOf 6 = ("Building", "slategray") ∧
    styleOf 9 = ("Water", "blue") ∧
    (∀ k : ℕ, k ∉ ([2, 3, 4, 5, 6, 9] : List ℕ) →
      styleOf k = ("Unknown", "yellow")) := by
  have hcol : col = (userPick code).getD (defaultHexOf code) := by
    have hl := lookupColor_of_mem selected userPick code hc
    simp only [processClass, hl] at hout
    split at hout
    · simp at hout
    · split at hout
      · simp at hout
      · rw [ClassOutcome.contours.injEq] at hout
        exact hout.2.1.symm
  refine ⟨hcol, ?_, ?_, rfl, rfl, rfl, rfl, rfl, rfl, ?_⟩
  · intro u hu
    rw [hcol, hu]
    rfl
  · intro hn
    rw [hcol, hn]
    rfl
  · intro k hk
    simp only [List.mem_cons, List.not_mem_nil, or_false] at hk
    push_neg at hk
    obtain ⟨h2, h3, h4, h5, h6, h9⟩ := hk
    have e2 : (k == 2) = false := beq_eq_false_iff_ne.mpr h2
    have e3 : (k == 3) = false := beq_eq_false_iff_ne.mpr h3
    have e4 : (k == 4) = false := beq_eq_false_iff_ne.mpr h4
    have e5 : (k == 5) = false := beq_eq_false_iff_ne.mpr h5
    have e6 : (k == 6) = false := beq_eq_false_iff_ne.mpr h6
    have e9 : (k == 9) = false := beq_eq_false_iff_ne.mpr h9
    simp [styleOf, default_classification_styles, List.lookup, e2, e3, e4, e5, e6, e9]

/-- Claim C5, witness: The spec's scenario: `custom_colors = {2: "#112233"}`
with class 2 selected — the class-2 contours carry color `#112233`, and
the default table is as stated. -/
theorem contour_style_witness :
    "#112233" = (pickC5 2).getD (defaultHexOf 2) ∧
    (∀ u, pickC5 2 = some u → "#112233" = u) ∧
    (pickC5 2 = none →
      "#112233" = (color_name_to_hex (styleOf 2).2).getD (styleOf 2).2) ∧
    styleOf 2 = ("Ground", "white") ∧
    styleOf 3 = ("Low Vegetation", "lightgreen") ∧
    styleOf 4 = ("Medium Vegetation", "green") ∧
    styleOf 5 = ("High Vegetation", "darkgreen") ∧
    styleOf 6 = ("Building", "slategray") ∧
    styleOf 9 = ("Water", "blue") ∧
    (∀ k : ℕ, k ∉ ([2, 3, 4, 5, 6, 9] : List ℕ) →
      styleOf k = ("Unknown", "yellow")) := by
  have hnlt : ¬ (subsetOf pts100 2).length < 100 := by
    rw [subsetOf_pts100, pts100_length]
    omega
  have hlook : lookupColor [2, 7] pickC5 2 = some "#112233" := rfl
  have hout : processClass constInterp0 (lookupColor [2, 7] pickC5) 1 1 pts100 2 =
      ClassOutcome.contours [] "#112233" 1 := by
    have hnlt2 : ¬ pts100.length < 100 := by
      rw [pts100_length]
      omega
    simp only [processClass, subsetOf_pts100, constInterp0, hlook]
    rw [if_neg hnlt2, if_neg (by simp [allInvalid]), levels_pts100]
  exact contour_style_resolution [2, 7] pickC5 constInterp0 1 1 pts100 2 [] "#112233" 1
    (by decide) hout

/-! ### C6: nonpositive grid spacing -/

/-- Claim C6, counterexample: A contour run with grid_spacing = −1 ≤ 0 on
a 100-point class does not fail at all — there is no `ConfigurationError`
anywhere in the code: the loop completes successfully, silently skipping
the class (the `np.arange` ranges are empty, so the grid is entirely
masked). -/
theorem negative_spacing_no_error :
    ((-1 : ℚ) ≤ 0) ∧
    runLoop emptyInterp (fun _ => some "#ffffff") 1 (-1) pts100 [2] =
      Except.ok [(2, ClassOutcome.allMasked)] := by
  constructor
  · norm_num
  · have hnlt : ¬ pts100.length < 100 := by
      rw [pts100_length]
      omega
    have hproc : processClass emptyInterp (fun _ => some "#ffffff") 1 (-1) pts100 2 =
        ClassOutcome.allMasked := by
      simp only [processClass, subsetOf_pts100]
      rw [if_neg hnlt, if_pos (emptyInterp_allInvalid _ _ _)]
    simp [runLoop, hproc]

/-- Claim C6, amended: `grid_spacing` comes from a UI slider over
[0.5, 10.0], so it is always at least 0.5 and in particular positive: a
request with grid_spacing ≤ 0 cannot arise.  The code performs no
validation and raises no `ConfigurationError`; were a negative spacing
passed to the per-class processing, the class would simply be skipped
(too few points, or an empty grid range making the grid entirely
masked), not rejected. -/
theorem grid_spacing_slider_positive
    (choice : Option ℚ) (interp : Interp) (colors : ℕ → Option String)
    (lw Δ : ℚ) (pts : List LasPoint) (code : ℕ) :
    ((1 : ℚ)/2 ≤ grid_spacing_slider choice ∧ grid_spacing_slider choice ≤ 10 ∧
      0 < grid_spacing_slider choice) ∧
    (Δ < 0 → (∀ sub xr yr row, row ∈ interp sub xr yr → row.length = xr.length) →
      processClass interp colors lw Δ pts code = ClassOutcome.tooFewPoints ∨
      processClass interp colors lw Δ pts code = ClassOutcome.allMasked) := by
  constructor
  · unfold grid_spacing_slider sliderValue
    cases choice with
    | none => norm_num
    | some v =>
        refine ⟨?_, ?_, ?_⟩
        · rw [show (1 : ℚ)/2 = 0.5 by norm_num]
          exact le_max_left _ _
        · exact max_le (by norm_num) ((min_le_left _ _).trans (by norm_num))
        · exact lt_of_lt_of_le (by norm_num : (0 : ℚ) < 0.5) (le_max_left _ _)
  · intro hΔ hshape
    by_cases h100 : (subsetOf pts code).length < 100
    · exact Or.inl (processClass_small interp colors lw Δ pts code h100)
    · right
      have hne : (subsetOf pts code).map (fun p => p.x) ≠ [] := by
        intro hcon
        rw [List.map_eq_nil] at hcon
        rw [hcon] at h100
        exact h100 (by simp)
      have hxr : arange (minQ ((subsetOf pts code).map fun p => p.x))
          (maxQ ((subsetOf pts code).map fun p => p.x)) Δ = [] := by
        unfold arange
        have hle := minQ_le_maxQ _ hne
        have hq : (maxQ ((subsetOf pts code).map fun p => p.x) -
            minQ ((subsetOf pts code).map fun p => p.x)) / Δ ≤ 0 := by
          rw [div_nonpos_iff]
          exact Or.inl ⟨by linarith, hΔ.le⟩
        have hc : ⌈(maxQ ((subsetOf pts code).map fun p => p.x) -
            minQ ((subsetOf pts code).map fun p => p.x)) / Δ⌉ ≤ 0 :=
          Int.ceil_le.mpr (by exact_mod_cast hq)
        rw [Int.toNat_of_nonpos hc]
        simp
      have hmask : allInvalid (interp (subsetOf pts code) []
          (arange (minQ ((subsetOf pts code).map fun p => p.y))
            (maxQ ((subsetOf pts code).map fun p => p.y)) Δ)) = true := by
        unfold allInvalid
        rw [List.all_eq_true]
        intro row hrow
        have h0 : row.length = 0 := by
          simpa using hshape _ _ _ row hrow
        rw [List.eq_nil_of_length_eq_zero h0]
        rfl
      simp only [processClass]
      rw [if_neg h100, hxr, if_pos hmask]

/-- Claim C6, amended, witness: A slider choice of −5 is clamped to 0.5,
and spacing −1 on the 100-point class yields a silent skip. -/
theorem grid_spacing_witness :
    ((1 : ℚ)/2 ≤ grid_spacing_slider (some (-5)) ∧
      grid_spacing_slider (some (-5)) ≤ 10 ∧
      0 < grid_spacing_slider (some (-5))) ∧
    (processClass emptyInterp (fun _ => none) 1 (-1) pts100 2 =
        ClassOutcome.tooFewPoints ∨
      processClass emptyInterp (fun _ => none) 1 (-1) pts100 2 =
        ClassOutcome.allMasked) := by
  have h := grid_spacing_slider_positive (some (-5)) emptyInterp (fun _ => none)
    1 (-1) pts100 2
  refine ⟨h.1, h.2 (by norm_num) ?_⟩
  intro sub xr yr row hrow
  simp only [emptyInterp, List.mem_map] at hrow
  obtain ⟨y, _, rfl⟩ := hrow
  rw [List.length_map]

/-! ### C10: `color_name_to_hex` -/

/-- Every entry of the color table has a non-hex-shaped name and a
hex-shaped value. -/
theorem css4_wellformed :
    CSS4_COLORS.all (fun p => !isHexColor p.1 && isHexColor p.2) = true := by
  decide

/-- A hex-shaped string is not a key of a table whose keys are all
non-hex-shaped. -/
theorem lookup_hex_none (l : List (String × String)) :
    (∀ p ∈ l, isHexColor p.1 = false) →
    ∀ s, isHexColor s = true → List.lookup s l = none := by
  induction l with
  | nil => intro _ s _; rfl
  | cons a t ih =>
      intro hl s hs
      have hfa : isHexColor a.1 = false := hl a (by simp)
      have hne : (s == a.1) = false := by
        cases hbe : s == a.1 with
        | false => rfl
        | true =>
            exfalso
            rw [← eq_of_beq hbe, hs] at hfa
            cases hfa
      simp only [List.lookup, hne]
      exact ih (fun p hp => hl p (by simp [hp])) s hs

/-- A value returned by `lookup` is one of the table's values. -/
theorem lookup_mem_value (l : List (String × String)) :
    ∀ (s hex : String), List.lookup s l = some hex → ∃ p ∈ l, p.2 = hex := by
  induction l with
  | nil => intro s hex h; cases h
  | cons a t ih =>
      intro s hex h
      simp only [List.lookup] at h
      cases hbe : s == a.1 with
      | true =>
          rw [hbe] at h
          exact ⟨a, by simp, by simpa using h⟩
      | false =>
          rw [hbe] at h
          obtain ⟨p, hp, hph⟩ := ih s hex h
          exact ⟨p, by simp [hp], hph⟩

/-- **C10.** `color_name_to_hex` maps every CSS4 color name (key of the
color table) to that name's hex value (lower-cased, as matplotlib
normalizes); any string that is not a CSS4 color name is converted
itself, so a valid `#rrggbb` hex input is returned unchanged up to case
normalization. -/
theorem color_name_to_hex_css4_and_hex :
    (∀ name hex, List.lookup name CSS4_COLORS = some hex →
      color_name_to_hex name = some hex.toLower) ∧
    (∀ s, List.lookup s CSS4_COLORS = none → color_name_to_hex s = to_hex s) ∧
    (∀ s, List.lookup s CSS4_COLORS = none → isHexColor s = true →
      color_name_to_hex s = some s.toLower) := by
  have hwf := css4_wellformed
  rw [List.all_eq_true] at hwf
  have hkeys : ∀ p ∈ CSS4_COLORS, isHexColor p.1 = false := by
    intro p hp
    have h := hwf p hp
    rw [Bool.and_eq_true] at h
    simpa using h.1
  have hvals : ∀ p ∈ CSS4_COLORS, isHexColor p.2 = true := by
    intro p hp
    have h := hwf p hp
    rw [Bool.and_eq_true] at h
    exact h.2
  refine ⟨?_, ?_, ?_⟩
  · intro name hex hlook
    unfold color_name_to_hex
    rw [hlook]
    obtain ⟨p, hp, hph⟩ := lookup_mem_value CSS4_COLORS name hex hlook
    have hhex : isHexColor hex = true := hph ▸ hvals p hp
    unfold to_hex
    simp only [Option.getD_some]
    rw [lookup_hex_none CSS4_COLORS hkeys hex hhex]
    simp [hhex]
  · intro s hlook
    unfold color_name_to_hex
    rw [hlook]
    rfl
  · intro s hlook hhex
    unfold color_name_to_hex to_hex
    rw [hlook]
    simp only [Option.getD_none]
    rw [hlook]
    simp [hhex]

/-- **C10, witness.** The CSS4 name "white" resolves to its table value
(lower-cased), and the already-hex string "#112233" is converted from
itself and returned unchanged. -/
theorem color_name_to_hex_witness :
    color_name_to_hex "white" = some ("#FFFFFF".toLower) ∧
    color_name_to_hex "#112233" = to_hex "#112233" ∧
    color_name_to_hex "#112233" = some ("#112233".toLower) := by
  have h := color_name_to_hex_css4_and_hex
  exact ⟨h.1 "white" "#FFFFFF" (by decide), h.2.1 "#112233" (by decide),
    h.2.2 "#112233" (by decide) (by decide)⟩

end LiDAR
